import Mathlib

set_option autoImplicit false

/-!
Verification development for the ThreadPool demonstration repository.

The repository contains two demo programs, `threaddemo.cpp` and `main.cpp`.
The worker-pool component (`threadpool.h`) is referenced by `threaddemo.cpp`
but its implementation file is not part of the sources available here, so the
pool is modelled from the specification's description (§3–§5, §7 of spec.md):
a fixed set of workers, an unbounded FIFO task queue, single-assignment result
slots, and drain-on-destruction semantics.  Concurrency is embedded as an
interleaving semantics: a scheduler command list drives the pool, and a
nondeterministic execution is a choice of command list.

The CLI dispatchers, `DoSomething`, and the usage texts are translated
directly from the two source files.
-/

namespace TP

instance {ε α : Type} [DecidableEq ε] [DecidableEq α] : DecidableEq (Except ε α) := fun a b =>
  match a, b with
  | .ok x, .ok y =>
      if h : x = y then .isTrue (by rw [h]) else .isFalse (by intro hc; cases hc; exact h rfl)
  | .error x, .error y =>
      if h : x = y then .isTrue (by rw [h]) else .isFalse (by intro hc; cases hc; exact h rfl)
  | .ok _, .error _ => .isFalse (by intro hc; cases hc)
  | .error _, .ok _ => .isFalse (by intro hc; cases hc)

/-- Modelled from the spec: a Task is a deferred computation with a unique
identity; running it yields either a value or an error (`Except`). The
implementation of the task body is opaque, so it is represented by the
outcome it produces when run. -/
structure Task (ε α : Type) where
  id : Nat
  run : Except ε α
deriving DecidableEq

/-- Modelled from the spec: worker-loop states `Idle`, `Running`, `Terminating`. -/
inductive WStatus (ε α : Type) where
  | idle
  | running (t : Task ε α)
  | terminating
deriving DecidableEq

/-- Modelled from the spec: the tri-state ResultSlot outcome. -/
inductive Outcome (ε α : Type) where
  | pending
  | completed (v : α)
  | failed (e : ε)
deriving DecidableEq

/-- Convert a task body's result into the outcome written to its ResultSlot. -/
def outcomeOf {ε α : Type} : Except ε α → Outcome ε α
  | .ok v => .completed v
  | .error e => .failed e

/-- Modelled from the spec: the pool state.  `queue` is the FIFO task queue
(head is dequeued next), `workers` the fixed set of worker threads, `slots`
the ResultSlot of each task id, `runOf` records the body of each submitted
task (for stating that `get` returns the task's actual result).  The three
logs record, in order, the ids submitted, dequeued and completed, so that
ordering claims can be stated about executions. -/
structure PoolState (ε α : Type) where
  queue : List (Task ε α)
  workers : List (WStatus ε α)
  slots : Nat → Outcome ε α
  runOf : Nat → Option (Except ε α)
  shuttingDown : Bool
  nextId : Nat
  submittedLog : List Nat
  dequeuedLog : List Nat
  completedLog : List Nat

/-- Modelled from the spec: construction spawns exactly `n` idle workers,
with an empty queue and all slots pending. -/
def initPool (ε α : Type) (n : Nat) : PoolState ε α :=
  { queue := []
    workers := List.replicate n .idle
    slots := fun _ => .pending
    runOf := fun _ => none
    shuttingDown := false
    nextId := 0
    submittedLog := []
    dequeuedLog := []
    completedLog := [] }

/-- Modelled from the spec: submission binds the callable and its arguments
into a Task, appends it to the tail of the FIFO queue, and returns the
handle (here: the fresh task id).  It is a total function: it never blocks
and never rejects. -/
def submit {ε α : Type} (r : Except ε α) (s : PoolState ε α) : PoolState ε α × Nat :=
  ({ s with
      queue := s.queue ++ [⟨s.nextId, r⟩]
      nextId := s.nextId + 1
      submittedLog := s.submittedLog ++ [s.nextId]
      runOf := fun i => if i = s.nextId then some r else s.runOf i },
   s.nextId)

/-- Scheduler commands: one interleaving step of the pool.  `submit` is a
caller action; `dequeue`, `finish` and `terminate` are worker `w`'s
transitions Idle→Running, Running→Idle and Idle→Terminating; `close`
requests shutdown. -/
inductive Cmd (ε α : Type) where
  | submit (r : Except ε α)
  | dequeue (w : Nat)
  | finish (w : Nat)
  | close
  | terminate (w : Nat)

/-- Modelled from the spec: transition Idle→Running.  Worker `w` must be
idle and the queue non-empty; it removes exactly the task at the head. -/
def doDequeue {ε α : Type} (w : Nat) (s : PoolState ε α) : Option (PoolState ε α) :=
  match s.workers[w]?, s.queue with
  | some .idle, t :: rest =>
      some { s with
              queue := rest
              workers := s.workers.set w (.running t)
              dequeuedLog := s.dequeuedLog ++ [t.id] }
  | _, _ => none

/-- Modelled from the spec: transition Running→Idle.  The outcome of the
task body (value or error) is written into that task's ResultSlot and the
worker returns to idle — an erroring task never kills the worker. -/
def doFinish {ε α : Type} (w : Nat) (s : PoolState ε α) : Option (PoolState ε α) :=
  match s.workers[w]? with
  | some (.running t) =>
      some { s with
              workers := s.workers.set w .idle
              slots := fun i => if i = t.id then outcomeOf t.run else s.slots i
              completedLog := s.completedLog ++ [t.id] }
  | _ => none

/-- Modelled from the spec: transition Idle→Terminating, enabled only when
shutdown has been requested and the queue is empty. -/
def doTerminate {ε α : Type} (w : Nat) (s : PoolState ε α) : Option (PoolState ε α) :=
  match s.workers[w]? with
  | some .idle =>
      if s.shuttingDown && s.queue.isEmpty then
        some { s with workers := s.workers.set w .terminating }
      else none
  | _ => none

/-- One interleaving step.  `none` means the command is not enabled in the
current state (e.g. dequeue on an empty queue blocks). -/
def applyCmd {ε α : Type} : Cmd ε α → PoolState ε α → Option (PoolState ε α)
  | .submit r, s => some (submit r s).1
  | .dequeue w, s => doDequeue w s
  | .finish w, s => doFinish w s
  | .close, s => some { s with shuttingDown := true }
  | .terminate w, s => doTerminate w s

/-- Run a whole schedule of commands. -/
def exec {ε α : Type} : List (Cmd ε α) → PoolState ε α → Option (PoolState ε α)
  | [], s => some s
  | c :: cs, s => (applyCmd c s).bind (exec cs)

/-- Modelled from the spec: `get` on a handle.  `none` models blocking (the
slot is still pending); once the slot is written, `get` returns the value
or re-raises the captured error. -/
def get {ε α : Type} (s : PoolState ε α) (h : Nat) : Option (Except ε α) :=
  match s.slots h with
  | .pending => none
  | .completed v => some (.ok v)
  | .failed e => some (.error e)

/-- The tasks currently being executed by the workers. -/
def runningTasks {ε α : Type} : List (WStatus ε α) → List (Task ε α)
  | [] => []
  | .running t :: ws => t :: runningTasks ws
  | .idle :: ws => runningTasks ws
  | .terminating :: ws => runningTasks ws

/-- Ids of the tasks currently being executed. -/
def runningIds {ε α : Type} (ws : List (WStatus ε α)) : List Nat :=
  (runningTasks ws).map Task.id

/-- Write the outcomes of a list of tasks into the slot map, in order. -/
def writeMany {ε α : Type} : List (Task ε α) → (Nat → Outcome ε α) → Nat → Outcome ε α
  | [], f => f
  | t :: ts, f => writeMany ts (fun i => if i = t.id then outcomeOf t.run else f i)

/-- Modelled from the spec: destructor drain semantics.  Shutdown is
requested; every task currently running finishes; every task still queued
is dequeued (in FIFO order) and executed to completion; then every worker
reaches Terminating and is joined.  The destructor returns only when all
of that has happened, which is what this function computes. -/
def destroy {ε α : Type} (s : PoolState ε α) : PoolState ε α :=
  let pending := runningTasks s.workers ++ s.queue
  { s with
      shuttingDown := true
      queue := []
      workers := s.workers.map fun _ => .terminating
      slots := writeMany pending s.slots
      dequeuedLog := s.dequeuedLog ++ s.queue.map Task.id
      completedLog := s.completedLog ++ pending.map Task.id }

/-- Construction error taxonomy (spec §7). -/
inductive PoolError where
  | nonPositiveThreadCount
deriving DecidableEq

/-- Modelled from the spec: fixed fallback thread count when hardware
concurrency is unavailable or reports zero (spec §3, "a fixed fallback,
e.g. 4"). -/
def hardwareFallback : Nat := 4

/-- Modelled from the spec: default thread count derived from hardware
concurrency `hw`, falling back to a fixed constant when `hw` is zero. -/
def defaultThreadCount (hw : Nat) : Nat :=
  if hw = 0 then hardwareFallback else hw

/-- Modelled from the spec: pool construction.  An explicit thread count
that is zero or negative is a usage error rejected synchronously; an
omitted count uses the hardware-derived default. -/
def mkPool (ε α : Type) (requested : Option Int) (hw : Nat) :
    Except PoolError (PoolState ε α) :=
  match requested with
  | some n => if n < 1 then .error .nonPositiveThreadCount else .ok (initPool ε α n.toNat)
  | none => .ok (initPool ε α (defaultThreadCount hw))

/-- Modelled from the spec: the example callable of spec §8
("Submitting computeSquare(7) returns a handle whose get() yields 49"). -/
def computeSquare (n : Int) : Int := n * n

/-- The multiset of task ids contributed by one worker status: the running
task's id, or nothing. -/
def extraOf {ε α : Type} : WStatus ε α → Multiset Nat
  | .running t => {t.id}
  | .idle => 0
  | .terminating => 0

/-- The pool's global invariant, preserved by every interleaving step:
ids are dequeued in FIFO submission order (`fifo`), submitted ids are fresh
and distinct (`fresh`, `nodup`), every dequeued id is accounted for exactly
once as either completed or currently running (`account`), a completed
task's slot holds the outcome of its own body and nothing else is ever
written (`doneSlots`, `pendingSlots`), and every live task's body is the
one recorded for its id at submission (`liveRun`). -/
structure Inv {ε α : Type} (s : PoolState ε α) : Prop where
  fifo : s.submittedLog = s.dequeuedLog ++ s.queue.map Task.id
  fresh : ∀ i ∈ s.submittedLog, i < s.nextId
  nodup : s.submittedLog.Nodup
  account : (s.dequeuedLog : Multiset Nat)
      = (s.completedLog : Multiset Nat) + (runningIds s.workers : Multiset Nat)
  doneSlots : ∀ i ∈ s.completedLog, ∃ r, s.runOf i = some r ∧ s.slots i = outcomeOf r
  pendingSlots : ∀ i, i ∉ s.completedLog → s.slots i = Outcome.pending
  liveRun : ∀ t : Task ε α, t ∈ s.queue ∨ WStatus.running t ∈ s.workers →
      s.runOf t.id = some t.run

/-- A two-worker schedule in which the second submitted task completes
before the first: both tasks are dequeued in FIFO order, worker 1 finishes
first. -/
def outOfOrderSchedule : List (Cmd Unit Nat) :=
  [.submit (.ok 10), .submit (.ok 20), .dequeue 0, .dequeue 1, .finish 1, .finish 0]

/-- A concrete pool state whose single worker is running a task that raised
the error "boom". -/
def errState : PoolState String Nat :=
  { queue := []
    workers := [.running ⟨0, .error "boom"⟩]
    slots := fun _ => .pending
    runOf := fun i => if i = 0 then some (.error "boom") else none
    shuttingDown := false
    nextId := 1
    submittedLog := [0]
    dequeuedLog := [0]
    completedLog := [] }

/-- A concrete pool state with two tasks still queued at the moment the
destructor begins. -/
def drainState : PoolState Unit Nat :=
  { queue := [⟨0, .ok 3⟩, ⟨1, .ok 5⟩]
    workers := [.idle]
    slots := fun _ => .pending
    runOf := fun i => if i = 0 then some (.ok 3) else if i = 1 then some (.ok 5) else none
    shuttingDown := false
    nextId := 2
    submittedLog := [0, 1]
    dequeuedLog := []
    completedLog := [] }

end TP

namespace Cstdlib

/-- Is `c` one of the whitespace characters skipped by C's `atoi`. -/
def isSpaceCh (c : Char) : Bool :=
  c = ' ' || c = '\t' || c = '\n' || c = '\x0b' || c = '\x0c' || c = '\r'

/-- Is `c` a decimal digit. -/
def isDigitCh (c : Char) : Bool :=
  '0' ≤ c && c ≤ '9'

/-- Numeric value of a digit character. -/
def digitVal (c : Char) : Nat := c.toNat - '0'.toNat

/-- Accumulate the value of a maximal leading run of digits. -/
def readDigits : List Char → Nat → Nat
  | [], acc => acc
  | c :: cs, acc => if isDigitCh c then readDigits cs (acc * 10 + digitVal c) else acc

/-- Drop leading whitespace. -/
def skipSpaces : List Char → List Char
  | [] => []
  | c :: cs => if isSpaceCh c then skipSpaces cs else c :: cs

/-- C's `atoi`: skip leading whitespace, read an optional sign and a maximal
run of decimal digits; any text without leading digits parses to 0.
Overflow is undefined behaviour in C and is not modelled. -/
def atoi (s : String) : Int :=
  match skipSpaces s.toList with
  | '-' :: cs => -(readDigits cs 0 : Int)
  | '+' :: cs => (readDigits cs 0 : Int)
  | cs => (readDigits cs 0 : Int)

end Cstdlib

/-- The two std::async launch policies appearing in the demos. -/
inductive Policy where
  | deferred
  | asyncPolicy
deriving DecidableEq

/-- Does `pat` occur at the start of `s`. -/
def beginsWith : List Char → List Char → Bool
  | [], _ => true
  | _ :: _, [] => false
  | p :: ps, c :: cs => p = c && beginsWith ps cs

/-- Does `pat` occur anywhere in `s`. -/
def occursIn (pat : List Char) : List Char → Bool
  | [] => beginsWith pat []
  | c :: cs => beginsWith pat (c :: cs) || occursIn pat cs

/-- Does the phrase `pat` occur in the line `line`. -/
def mentionsPhrase (pat line : String) : Bool :=
  occursIn pat.toList line.toList

/-- Which launch policy a usage-text line claims for its demo: the policy
named by the phrase "deferred policy" or "async policy" in the line. -/
def usagePolicyOf (line : String) : Option Policy :=
  if mentionsPhrase "deferred policy" line then some .deferred
  else if mentionsPhrase "async policy" line then some .asyncPolicy
  else none

namespace Threaddemo

/-- From threaddemo.cpp: `DoSomething(sec)` prints a start message, sleeps,
prints an end message, and returns `sec`.  The sleep is real time and is not
modelled; the messages and the return value are. -/
def DoSomething (sec : Int) : List String × Int :=
  (["Sleeping for " ++ toString sec ++ " s ...",
    "Slept for " ++ toString sec ++ " s."], sec)

/-- From threaddemo.cpp: what the `switch` in `main` runs for a given
selector value. -/
inductive Run where
  | demo1 | demo2 | demo3
  | demo45 (defer : Bool)
  | demo6 | demo7
  | demo89 (toosmall : Bool)
  | demo10 | demo11 | demo12
  | usage
deriving DecidableEq

/-- From threaddemo.cpp lines 386–421: the dispatch switch.  Arguments 4 and
5 call `Demo45(true)` and `Demo45(false)`; 8 and 9 call `Demo89(true)` and
`Demo89(false)`; anything else falls to the default (usage) case. -/
def dispatch (sel : Int) : Run :=
  if sel = 1 then .demo1
  else if sel = 2 then .demo2
  else if sel = 3 then .demo3
  else if sel = 4 then .demo45 true
  else if sel = 5 then .demo45 false
  else if sel = 6 then .demo6
  else if sel = 7 then .demo7
  else if sel = 8 then .demo89 true
  else if sel = 9 then .demo89 false
  else if sel = 10 then .demo10
  else if sel = 11 then .demo11
  else if sel = 12 then .demo12
  else .usage

/-- From threaddemo.cpp lines 146–159: `Demo45(defer)` starts the async task
with `std::launch::deferred` when `defer` is true and `std::launch::async`
when it is false. -/
def Demo45policy (defer : Bool) : Policy :=
  if defer then .deferred else .asyncPolicy

/-- The launch policy actually exercised when the program is invoked with
selector `sel`, when that selector runs `Demo45`. -/
def policyOfArg (sel : Int) : Option Policy :=
  match dispatch sel with
  | .demo45 d => some (Demo45policy d)
  | _ => none

/-- Shape of one usage line: tab, program name, space, selector, tab, text. -/
def usageLine (argv0 : String) (n : Nat) (txt : String) : String :=
  "\t" ++ argv0 ++ " " ++ toString n ++ "\t" ++ txt

/-- From threaddemo.cpp line 409: the usage line for argument 4. -/
def usageLine4 (argv0 : String) : String :=
  usageLine argv0 4 "Start async task with the deferred policy"

/-- From threaddemo.cpp line 410: the usage line for argument 5. -/
def usageLine5 (argv0 : String) : String :=
  usageLine argv0 5 "Start async task with the async policy"

/-- From threaddemo.cpp lines 403–418: the usage text printed to standard
output by the default case. -/
def usage (argv0 : String) : List String :=
  ["C++11 multithreading demonstration program",
   "Usage:",
   usageLine argv0 1 "Simple std::thread example",
   usageLine argv0 2 "Start several threads and wait for all of them",
   usageLine argv0 3 "Simple std::async example",
   usageLine4 argv0,
   usageLine5 argv0,
   usageLine argv0 6 "Start several async tasks and get their results",
   usageLine argv0 7 "Simple thread pool example",
   usageLine argv0 8 "Start more tasks than the size of the thread pool",
   usageLine argv0 9 "Start several tasks in a big-enough thread pool",
   usageLine argv0 10 "Start a thread suspended",
   usageLine argv0 11 "Thread synchronization with condition variables",
   usageLine argv0 12 "Compare parallel writes to regular and atomic variables"]

/-- From threaddemo.cpp lines 386–421: the whole of `main`.  `args` are the
command-line arguments after the program name, so `argc == 2` is
`args.length = 1`.  Returns what ran, what the dispatcher itself printed to
standard output (the usage text in the default case, nothing otherwise),
and the exit status: `EXIT_FAILURE` (1) from the default case, 0 when
control falls off the end of `main`. -/
def runMain (argv0 : String) (args : List String) : Run × List String × Int :=
  let sel : Int := if args.length = 1 then Cstdlib.atoi (args.headD "") else -1
  match dispatch sel with
  | .usage => (.usage, usage argv0, 1)
  | r => (r, [], 0)

end Threaddemo

namespace Maincpp

/-- From main.cpp: `DoSomething(sec)` — same shape as the threaddemo version
but the end message has no trailing period. -/
def DoSomething (sec : Int) : List String × Int :=
  (["Sleeping for " ++ toString sec ++ " s ...",
    "Slept for " ++ toString sec ++ " s"], sec)

/-- From main.cpp: what the `switch` in `main` runs for a given selector. -/
inductive Run where
  | demo1 | demo2 | demo3
  | demo45 (defer : Bool)
  | demo6
  | usage
deriving DecidableEq

/-- From main.cpp lines 134–157: the dispatch switch.  Argument 4 calls
`Demo45(false)` and argument 5 calls `Demo45(true)` — the opposite of
threaddemo.cpp. -/
def dispatch (sel : Int) : Run :=
  if sel = 1 then .demo1
  else if sel = 2 then .demo2
  else if sel = 3 then .demo3
  else if sel = 4 then .demo45 false
  else if sel = 5 then .demo45 true
  else if sel = 6 then .demo6
  else .usage

/-- From main.cpp lines 95–108: `Demo45(defer)` — same policy selection as
in threaddemo.cpp. -/
def Demo45policy (defer : Bool) : Policy :=
  if defer then .deferred else .asyncPolicy

/-- The launch policy actually exercised when the program is invoked with
selector `sel`, when that selector runs `Demo45`. -/
def policyOfArg (sel : Int) : Option Policy :=
  match dispatch sel with
  | .demo45 d => some (Demo45policy d)
  | _ => none

/-- From main.cpp line 151: the usage line for argument 4. -/
def usageLine4 (argv0 : String) : String :=
  Threaddemo.usageLine argv0 4 "Start async task with the async policy"

/-- From main.cpp line 152: the usage line for argument 5. -/
def usageLine5 (argv0 : String) : String :=
  Threaddemo.usageLine argv0 5 "Start async task with the deferred policy"

/-- From main.cpp lines 145–154: the usage text printed to standard output
by the default case. -/
def usage (argv0 : String) : List String :=
  ["C++11 multithreading demonstration program",
   "Usage:",
   Threaddemo.usageLine argv0 1 "Simple std::thread example",
   Threaddemo.usageLine argv0 2 "Start several threads and wait for all of them",
   Threaddemo.usageLine argv0 3 "Simple std::async example",
   usageLine4 argv0,
   usageLine5 argv0,
   Threaddemo.usageLine argv0 6 "Start several async tasks and get their results"]

/-- From main.cpp lines 134–157: the whole of `main`, with the same reading
as `Threaddemo.runMain`. -/
def runMain (argv0 : String) (args : List String) : Run × List String × Int :=
  let sel : Int := if args.length = 1 then Cstdlib.atoi (args.headD "") else -1
  match dispatch sel with
  | .usage => (.usage, usage argv0, 1)
  | r => (r, [], 0)

end Maincpp

namespace TP

variable {ε α : Type}

lemma runningIds_cons (x : WStatus ε α) (ws : List (WStatus ε α)) :
    (runningIds (x :: ws) : Multiset Nat) = extraOf x + (runningIds ws : Multiset Nat) := by
  cases x <;>
    simp [runningIds, runningTasks, extraOf, Multiset.cons_coe, Multiset.singleton_add]

lemma runningTasks_replicate_idle (n : Nat) :
    runningTasks (List.replicate n (WStatus.idle : WStatus ε α)) = [] := by
  induction n with
  | zero => rfl
  | succ n ih => rw [List.replicate_succ]; simpa [runningTasks] using ih

lemma mem_runningIds_of_running {t : Task ε α} {ws : List (WStatus ε α)}
    (h : WStatus.running t ∈ ws) : t.id ∈ runningIds ws := by
  induction ws with
  | nil => simp at h
  | cons a ws ih =>
    rw [List.mem_cons] at h
    rcases h with h | h
    · rw [← h]; simp [runningIds, runningTasks]
    · cases a <;> simp [runningIds, runningTasks] at ih ⊢ <;> tauto

lemma runningIds_set (ws : List (WStatus ε α)) (w : Nat) (st st' : WStatus ε α)
    (h : ws[w]? = some st) :
    (runningIds (ws.set w st') : Multiset Nat) + extraOf st
      = (runningIds ws : Multiset Nat) + extraOf st' := by
  induction ws generalizing w with
  | nil => simp at h
  | cons a ws ih =>
    cases w with
    | zero =>
      simp at h
      subst h
      simp only [List.set, runningIds_cons]
      abel
    | succ w =>
      simp at h
      have hh := ih w h
      simp only [List.set, runningIds_cons]
      rw [add_assoc, add_assoc, hh]

lemma workers_length_applyCmd {c : Cmd ε α} {s s' : PoolState ε α}
    (h : applyCmd c s = some s') : s'.workers.length = s.workers.length := by
  cases c with
  | submit r =>
    simp only [applyCmd, Option.some.injEq] at h
    rw [← h]; simp [submit]
  | dequeue w =>
    simp only [applyCmd] at h
    unfold doDequeue at h
    split at h
    · simp only [Option.some.injEq] at h
      rw [← h]; simp [List.length_set]
    · simp at h
  | finish w =>
    simp only [applyCmd] at h
    unfold doFinish at h
    split at h
    · simp only [Option.some.injEq] at h
      rw [← h]; simp [List.length_set]
    · simp at h
  | close =>
    simp only [applyCmd, Option.some.injEq] at h
    rw [← h]
  | terminate w =>
    simp only [applyCmd] at h
    unfold doTerminate at h
    split at h
    · split at h
      · simp only [Option.some.injEq] at h
        rw [← h]; simp [List.length_set]
      · simp at h
    · simp at h

lemma workers_length_exec {cs : List (Cmd ε α)} {s s' : PoolState ε α}
    (h : exec cs s = some s') : s'.workers.length = s.workers.length := by
  induction cs generalizing s with
  | nil => simp only [exec, Option.some.injEq] at h; rw [← h]
  | cons c cs ih =>
    simp only [exec] at h
    rcases Option.bind_eq_some.mp h with ⟨u, hu, hrest⟩
    exact (ih hrest).trans (workers_length_applyCmd hu)

lemma inv_init (n : Nat) : Inv (initPool ε α n) := by
  constructor <;>
    simp [initPool, runningIds, runningTasks_replicate_idle]

end TP

namespace TP

variable {ε α : Type}

lemma Inv.dequeued_nodup {s : PoolState ε α} (h : Inv s) : s.dequeuedLog.Nodup := by
  have hn := h.nodup
  rw [h.fifo] at hn
  exact hn.of_append_left

lemma Inv.mem_submitted_of_dequeued {s : PoolState ε α} (h : Inv s) {i : Nat}
    (hi : i ∈ s.dequeuedLog) : i ∈ s.submittedLog := by
  rw [h.fifo]; exact List.mem_append_left _ hi

lemma Inv.mem_submitted_of_queue {s : PoolState ε α} (h : Inv s) {t : Task ε α}
    (ht : t ∈ s.queue) : t.id ∈ s.submittedLog := by
  rw [h.fifo]; exact List.mem_append_right _ (List.mem_map_of_mem _ ht)

lemma Inv.mem_dequeued_of_completed {s : PoolState ε α} (h : Inv s) {i : Nat}
    (hi : i ∈ s.completedLog) : i ∈ s.dequeuedLog := by
  have hm : i ∈ (s.dequeuedLog : Multiset Nat) := by
    rw [h.account]
    exact Multiset.mem_add.mpr (Or.inl (by simpa using hi))
  simpa using hm

lemma Inv.mem_dequeued_of_running {s : PoolState ε α} (h : Inv s) {t : Task ε α}
    (ht : WStatus.running t ∈ s.workers) : t.id ∈ s.dequeuedLog := by
  have hm : t.id ∈ (s.dequeuedLog : Multiset Nat) := by
    rw [h.account]
    exact Multiset.mem_add.mpr (Or.inr (by simpa using mem_runningIds_of_running ht))
  simpa using hm

lemma Inv.lt_nextId_of_live {s : PoolState ε α} (h : Inv s) {t : Task ε α}
    (ht : t ∈ s.queue ∨ WStatus.running t ∈ s.workers) : t.id < s.nextId := by
  rcases ht with ht | ht
  · exact h.fresh _ (h.mem_submitted_of_queue ht)
  · exact h.fresh _ (h.mem_submitted_of_dequeued (h.mem_dequeued_of_running ht))

lemma Inv.lt_nextId_of_completed {s : PoolState ε α} (h : Inv s) {i : Nat}
    (hi : i ∈ s.completedLog) : i < s.nextId :=
  h.fresh _ (h.mem_submitted_of_dequeued (h.mem_dequeued_of_completed hi))

lemma Inv.not_completed_of_running {s : PoolState ε α} (h : Inv s) {t : Task ε α}
    (ht : WStatus.running t ∈ s.workers) : t.id ∉ s.completedLog := by
  have hcnt := congrArg (Multiset.count t.id) h.account
  simp only [Multiset.count_add, Multiset.coe_count] at hcnt
  have h1 : s.dequeuedLog.count t.id ≤ 1 :=
    List.nodup_iff_count_le_one.mp h.dequeued_nodup _
  have h2 : 0 < (runningIds s.workers).count t.id :=
    List.count_pos_iff.mpr (mem_runningIds_of_running ht)
  intro hc
  have h3 : 0 < s.completedLog.count t.id := List.count_pos_iff.mpr hc
  omega

lemma inv_submit {s : PoolState ε α} (h : Inv s) (r : Except ε α) : Inv (submit r s).1 := by
  refine ⟨?_, ?_, ?_, ?_, ?_, ?_, ?_⟩ <;> simp only [submit]
  · rw [h.fifo]; simp
  · intro i hi
    rw [List.mem_append] at hi
    rcases hi with hi | hi
    · exact Nat.lt_succ_of_lt (h.fresh _ hi)
    · simp at hi; omega
  · refine List.Nodup.append h.nodup (by simp) ?_
    intro a ha hb
    simp at hb
    subst hb
    exact absurd (h.fresh _ ha) (lt_irrefl _)
  · exact h.account
  · intro i hi
    obtain ⟨r', hr', hs'⟩ := h.doneSlots i hi
    have hne : i ≠ s.nextId := Nat.ne_of_lt (h.lt_nextId_of_completed hi)
    exact ⟨r', by simp [hne, hr'], hs'⟩
  · exact h.pendingSlots
  · intro t ht
    rcases ht with ht | ht
    · rw [List.mem_append] at ht
      rcases ht with ht | ht
      · have hne : t.id ≠ s.nextId := Nat.ne_of_lt (h.lt_nextId_of_live (Or.inl ht))
        simp only [hne, if_false]
        exact h.liveRun t (Or.inl ht)
      · simp at ht
        subst ht
        simp
    · have hne : t.id ≠ s.nextId := Nat.ne_of_lt (h.lt_nextId_of_live (Or.inr ht))
      simp only [hne, if_false]
      exact h.liveRun t (Or.inr ht)

end TP

namespace TP

variable {ε α : Type}

lemma coe_append_singleton (l : List Nat) (a : Nat) :
    (↑(l ++ [a]) : Multiset Nat) = ↑l + {a} := by
  rw [← Multiset.coe_singleton, ← Multiset.coe_add]

lemma inv_doDequeue {s s' : PoolState ε α} {w : Nat} (h : Inv s)
    (hd : doDequeue w s = some s') : Inv s' := by
  unfold doDequeue at hd
  split at hd
  next t rest h1 h2 =>
    rw [Option.some.injEq] at hd
    subst hd
    refine ⟨?_, h.fresh, h.nodup, ?_, h.doneSlots, h.pendingSlots, ?_⟩
    · show s.submittedLog = (s.dequeuedLog ++ [t.id]) ++ rest.map Task.id
      rw [h.fifo, h2]
      simp
    · show (↑(s.dequeuedLog ++ [t.id]) : Multiset Nat)
        = ↑s.completedLog + ↑(runningIds (s.workers.set w (.running t)))
      have hset := runningIds_set s.workers w .idle (.running t) h1
      simp only [extraOf, add_zero] at hset
      rw [coe_append_singleton, hset, h.account]
      abel
    · intro u hu
      rcases hu with hu | hu
      · exact h.liveRun u (Or.inl (by rw [h2]; exact List.mem_cons_of_mem _ hu))
      · rcases List.mem_or_eq_of_mem_set hu with hu' | hu'
        · exact h.liveRun u (Or.inr hu')
        · have hut : u = t := by injection hu'
          subst hut
          exact h.liveRun u (Or.inl (by rw [h2]; exact List.mem_cons_self _ _))
  next =>
    simp at hd

lemma inv_doFinish {s s' : PoolState ε α} {w : Nat} (h : Inv s)
    (hf : doFinish w s = some s') : Inv s' := by
  unfold doFinish at hf
  split at hf
  next t h1 =>
    rw [Option.some.injEq] at hf
    subst hf
    have hmem : WStatus.running t ∈ s.workers := List.getElem?_mem h1
    have hnotc : t.id ∉ s.completedLog := h.not_completed_of_running hmem
    refine ⟨h.fifo, h.fresh, h.nodup, ?_, ?_, ?_, ?_⟩
    · show (s.dequeuedLog : Multiset Nat)
        = ↑(s.completedLog ++ [t.id]) + ↑(runningIds (s.workers.set w .idle))
      have hset := runningIds_set s.workers w (.running t) .idle h1
      simp only [extraOf, add_zero] at hset
      rw [coe_append_singleton, h.account, ← hset]
      abel
    · intro i hi
      rw [List.mem_append] at hi
      rcases hi with hi | hi
      · obtain ⟨r, hr, hslot⟩ := h.doneSlots i hi
        have hne : i ≠ t.id := fun hc => hnotc (hc ▸ hi)
        exact ⟨r, hr, by simp [hne, hslot]⟩
      · simp at hi
        subst hi
        have hr := h.liveRun t (Or.inr hmem)
        exact ⟨t.run, hr, by simp⟩
    · intro i hi
      rw [List.mem_append] at hi
      push_neg at hi
      have hne : i ≠ t.id := by
        intro hc
        exact hi.2 (by simp [hc])
      simp only [hne, if_false]
      exact h.pendingSlots i hi.1
    · intro u hu
      rcases hu with hu | hu
      · exact h.liveRun u (Or.inl hu)
      · rcases List.mem_or_eq_of_mem_set hu with hu' | hu'
        · exact h.liveRun u (Or.inr hu')
        · cases hu'
  next =>
    simp at hf

lemma inv_doTerminate {s s' : PoolState ε α} {w : Nat} (h : Inv s)
    (ht : doTerminate w s = some s') : Inv s' := by
  unfold doTerminate at ht
  split at ht
  next h1 =>
    split at ht
    next hcond =>
      rw [Option.some.injEq] at ht
      subst ht
      refine ⟨h.fifo, h.fresh, h.nodup, ?_, h.doneSlots, h.pendingSlots, ?_⟩
      · show (s.dequeuedLog : Multiset Nat)
          = ↑s.completedLog + ↑(runningIds (s.workers.set w .terminating))
        have hset := runningIds_set s.workers w .idle .terminating h1
        simp only [extraOf, add_zero] at hset
        rw [hset, h.account]
      · intro u hu
        rcases hu with hu | hu
        · exact h.liveRun u (Or.inl hu)
        · rcases List.mem_or_eq_of_mem_set hu with hu' | hu'
          · exact h.liveRun u (Or.inr hu')
          · cases hu'
    next =>
      simp at ht
  next =>
    simp at ht

lemma inv_close {s : PoolState ε α} (h : Inv s) : Inv { s with shuttingDown := true } :=
  ⟨h.fifo, h.fresh, h.nodup, h.account, h.doneSlots, h.pendingSlots, h.liveRun⟩

lemma inv_applyCmd {c : Cmd ε α} {s s' : PoolState ε α} (h : Inv s)
    (ha : applyCmd c s = some s') : Inv s' := by
  cases c with
  | submit r =>
    simp only [applyCmd, Option.some.injEq] at ha
    rw [← ha]
    exact inv_submit h r
  | dequeue w => exact inv_doDequeue h ha
  | finish w => exact inv_doFinish h ha
  | close =>
    simp only [applyCmd, Option.some.injEq] at ha
    rw [← ha]
    exact inv_close h
  | terminate w => exact inv_doTerminate h ha

lemma inv_exec {cs : List (Cmd ε α)} {s s' : PoolState ε α} (h : Inv s)
    (he : exec cs s = some s') : Inv s' := by
  induction cs generalizing s with
  | nil =>
    simp only [exec, Option.some.injEq] at he
    rw [← he]; exact h
  | cons c cs ih =>
    simp only [exec] at he
    rcases Option.bind_eq_some.mp he with ⟨u, hu, hrest⟩
    exact ih (inv_applyCmd h hu) hrest

end TP

namespace TP

variable {ε α : Type}

lemma destroy_completedLog (s : PoolState ε α) :
    (destroy s).completedLog
      = s.completedLog ++ (runningIds s.workers ++ s.queue.map Task.id) := by
  simp [destroy, runningIds, List.map_append]

lemma outcomeOf_ne_pending (r : Except ε α) : outcomeOf r ≠ Outcome.pending := by
  cases r <;> simp [outcomeOf]

lemma writeMany_not_mem (ts : List (Task ε α)) (f : Nat → Outcome ε α) (i : Nat)
    (hi : i ∉ ts.map Task.id) : writeMany ts f i = f i := by
  induction ts generalizing f with
  | nil => rfl
  | cons t ts ih =>
    simp only [List.map_cons, List.mem_cons, not_or] at hi
    rw [writeMany, ih _ hi.2]
    simp [hi.1]

lemma writeMany_ne_pending (ts : List (Task ε α)) (f : Nat → Outcome ε α) (i : Nat)
    (hi : i ∈ ts.map Task.id) : writeMany ts f i ≠ Outcome.pending := by
  induction ts generalizing f with
  | nil => simp at hi
  | cons t ts ih =>
    by_cases hmem : i ∈ ts.map Task.id
    · exact ih _ hmem
    · simp only [List.map_cons, List.mem_cons] at hi
      rcases hi with hi | hi
      · rw [writeMany, writeMany_not_mem _ _ _ hmem, hi]
        simp
        exact outcomeOf_ne_pending _
      · exact absurd hi hmem

lemma destroy_completed_nodup {s : PoolState ε α} (h : Inv s) :
    (destroy s).completedLog.Nodup := by
  have hms : ((destroy s).completedLog : Multiset Nat) = (s.submittedLog : Multiset Nat) := by
    rw [destroy_completedLog, h.fifo]
    rw [show ((s.completedLog ++ (runningIds s.workers ++ s.queue.map Task.id) : List Nat) :
          Multiset Nat)
        = ↑s.completedLog + (↑(runningIds s.workers) + ↑(s.queue.map Task.id)) from by
      rw [← Multiset.coe_add, ← Multiset.coe_add]]
    rw [show ((s.dequeuedLog ++ s.queue.map Task.id : List Nat) : Multiset Nat)
        = ↑s.dequeuedLog + ↑(s.queue.map Task.id) from by
      rw [← Multiset.coe_add]]
    rw [h.account]
    abel
  rw [← Multiset.coe_nodup, hms, Multiset.coe_nodup]
  exact h.nodup

lemma mem_destroy_completed {s : PoolState ε α} (h : Inv s) {i : Nat}
    (hi : i ∈ s.submittedLog) : i ∈ (destroy s).completedLog := by
  rw [destroy_completedLog]
  rw [h.fifo] at hi
  rw [List.mem_append] at hi ⊢
  rcases hi with hi | hi
  · have hm : i ∈ (s.dequeuedLog : Multiset Nat) := by simpa using hi
    rw [h.account] at hm
    rcases Multiset.mem_add.mp hm with hc | hr
    · exact Or.inl (by simpa using hc)
    · exact Or.inr (List.mem_append_left _ (by simpa using hr))
  · exact Or.inr (List.mem_append_right _ hi)

end TP

namespace TP

variable {ε α : Type}

/-- C1: when a task's callable raises an error during execution, the finish
step always succeeds (the pool does not crash), the error is captured into
that task's own ResultSlot, the worker returns to Idle (it survives and the
worker count is unchanged), `get` on that task's own handle returns exactly
the raised error without blocking, and the slot of every other task is
unaffected. -/
theorem c1_error_capture {s : PoolState ε α} {w : Nat} {t : Task ε α} {e : ε}
    (hw : s.workers[w]? = some (WStatus.running t)) (he : t.run = .error e) :
    ∃ s', applyCmd (Cmd.finish w) s = some s'
      ∧ s'.slots t.id = Outcome.failed e
      ∧ get s' t.id = some (Except.error e)
      ∧ s'.workers[w]? = some WStatus.idle
      ∧ s'.workers.length = s.workers.length
      ∧ (∀ i, i ≠ t.id → s'.slots i = s.slots i)
      ∧ s'.queue = s.queue := by
  have hlt : w < s.workers.length := (List.getElem?_eq_some.mp hw).1
  refine ⟨{ s with
      workers := s.workers.set w .idle
      slots := fun i => if i = t.id then outcomeOf t.run else s.slots i
      completedLog := s.completedLog ++ [t.id] }, ?_, ?_, ?_, ?_, ?_, ?_, ?_⟩
  · show doFinish w s = _
    unfold doFinish
    rw [hw]
  · simp [he, outcomeOf]
  · simp [get, he, outcomeOf]
  · rw [List.getElem?_set_self']
    simp [hlt]
  · simp [List.length_set]
  · intro i hi
    simp [hi]
  · rfl

/-- Witness for C1: a one-worker pool whose worker is running a task that
raised the error "boom". -/
theorem c1_error_capture_witness :
    errState.workers[0]? = some (WStatus.running ⟨0, Except.error "boom"⟩)
    ∧ (⟨0, Except.error "boom"⟩ : Task String Nat).run = Except.error "boom"
    ∧ ∃ s', applyCmd (Cmd.finish 0) errState = some s'
        ∧ s'.slots 0 = Outcome.failed "boom"
        ∧ get s' 0 = some (Except.error "boom")
        ∧ s'.workers[0]? = some WStatus.idle
        ∧ s'.workers.length = errState.workers.length
        ∧ (∀ i, i ≠ 0 → s'.slots i = errState.slots i)
        ∧ s'.queue = errState.queue :=
  ⟨rfl, rfl,
    c1_error_capture (s := errState) (w := 0) (t := ⟨0, Except.error "boom"⟩)
      (e := "boom") rfl rfl⟩

/-- C2: at the moment destruction begins, every task still in the queue is
executed to completion before the destructor returns — its id is in the
completed log and its ResultSlot is written (not pending) — the queue ends
empty, and every worker has reached Terminating (and so can be joined);
no task is silently discarded. -/
theorem c2_drain (s : PoolState ε α) :
    (∀ t ∈ s.queue, t.id ∈ (destroy s).completedLog
        ∧ (destroy s).slots t.id ≠ Outcome.pending)
    ∧ (destroy s).queue = []
    ∧ (∀ st ∈ (destroy s).workers, st = WStatus.terminating) := by
  refine ⟨?_, rfl, ?_⟩
  · intro t ht
    constructor
    · rw [destroy_completedLog]
      exact List.mem_append_right _ (List.mem_append_right _ (List.mem_map_of_mem _ ht))
    · show writeMany (runningTasks s.workers ++ s.queue) s.slots t.id ≠ Outcome.pending
      apply writeMany_ne_pending
      rw [List.map_append]
      exact List.mem_append_right _ (List.mem_map_of_mem _ ht)
  · intro st hst
    simp only [destroy, List.mem_map] at hst
    obtain ⟨a, _, hterm⟩ := hst
    exact hterm.symm

/-- Witness for C2: a pool with two queued tasks and one idle worker at the
moment destruction begins. -/
theorem c2_drain_witness :
    ((⟨0, Except.ok 3⟩ : Task Unit Nat) ∈ drainState.queue
      ∧ (0 : Nat) ∈ (destroy drainState).completedLog
      ∧ (destroy drainState).slots 0 ≠ Outcome.pending)
    ∧ (destroy drainState).queue = []
    ∧ (∀ st ∈ (destroy drainState).workers, st = WStatus.terminating) := by
  obtain ⟨h1, h2, h3⟩ := c2_drain drainState
  have hm : (⟨0, Except.ok 3⟩ : Task Unit Nat) ∈ drainState.queue :=
    List.mem_cons_self _ _
  exact ⟨⟨hm, (h1 _ hm).1, (h1 _ hm).2⟩, h2, h3⟩

end TP

namespace TP

/-- C3: across every execution of the pool, each task's ResultSlot is
written at most once (the completed log never repeats an id and untouched
ids stay pending), the value observed via `get` equals the task's actual
return value, and — running the destructor to drain — every submitted task
reaches a terminal outcome exactly once. -/
theorem c3_single_assignment {ε α : Type} (n : Nat) (cs : List (Cmd ε α))
    (s' : PoolState ε α) (he : exec cs (initPool ε α n) = some s') :
    s'.completedLog.Nodup
    ∧ (∀ i r, s'.runOf i = some r → i ∈ s'.completedLog → get s' i = some r)
    ∧ (∀ i, i ∉ s'.completedLog → get s' i = none)
    ∧ (∀ i ∈ s'.submittedLog, i ∈ (destroy s').completedLog)
    ∧ (destroy s').completedLog.Nodup := by
  have h := inv_exec (inv_init n) he
  refine ⟨?_, ?_, ?_, ?_, destroy_completed_nodup h⟩
  · have hle : (s'.completedLog : Multiset Nat) ≤ (s'.dequeuedLog : Multiset Nat) := by
      rw [h.account]; exact Multiset.le_add_right _ _
    have hnd := Multiset.nodup_of_le hle (by rw [Multiset.coe_nodup]; exact h.dequeued_nodup)
    rwa [Multiset.coe_nodup] at hnd
  · intro i r hr hi
    obtain ⟨r', hr', hslot⟩ := h.doneSlots i hi
    rw [hr] at hr'
    injection hr' with hr'
    subst hr'
    cases r <;> simp [get, hslot, outcomeOf]
  · intro i hi
    simp [get, h.pendingSlots i hi]
  · intro i hi
    exact mem_destroy_completed h hi

/-- Witness for C3: a one-task execution on a one-worker pool. -/
theorem c3_single_assignment_witness :
    ∃ s', exec [Cmd.submit (Except.ok (1 : Nat))] (initPool Unit Nat 1) = some s'
      ∧ (s'.completedLog.Nodup
        ∧ (∀ i r, s'.runOf i = some r → i ∈ s'.completedLog → get s' i = some r)
        ∧ (∀ i, i ∉ s'.completedLog → get s' i = none)
        ∧ (∀ i ∈ s'.submittedLog, i ∈ (destroy s').completedLog)
        ∧ (destroy s').completedLog.Nodup) :=
  ⟨_, rfl, c3_single_assignment 1 [Cmd.submit (Except.ok 1)] _ rfl⟩

/-- C4: submission always succeeds immediately in every pool state —
including states where every worker is busy, since nothing about the
workers is inspected: the step is always enabled (never blocks, never
rejects), it appends the new task at the tail of the queue, and `k`
successive submissions grow the queue by exactly `k` (unbounded growth,
no backpressure). -/
theorem c4_submit_never_blocks {ε α : Type} (r : Except ε α) (s : PoolState ε α) (k : Nat) :
    applyCmd (Cmd.submit r) s = some (submit r s).1
    ∧ (submit r s).1.queue = s.queue ++ [⟨s.nextId, r⟩]
    ∧ (submit r s).1.queue.length = s.queue.length + 1
    ∧ ((exec (List.replicate k (Cmd.submit r)) s).map fun u => u.queue.length)
        = some (s.queue.length + k) := by
  refine ⟨rfl, rfl, by simp [submit], ?_⟩
  induction k generalizing s with
  | zero => simp [exec]
  | succ k ih =>
    rw [List.replicate_succ]
    show ((exec (List.replicate k (Cmd.submit r)) (submit r s).1).map
        fun u => u.queue.length) = some (s.queue.length + (k + 1))
    rw [ih]
    simp [submit]
    omega

/-- C5: in every reachable state of every execution, the ids dequeued so
far are exactly an initial segment of the submission order (FIFO) and no
id is ever dequeued twice (no two workers take the same task); and there
is a concrete two-worker schedule in which completion order `[1, 0]`
differs from submission order `[0, 1]`. -/
theorem c5_fifo_dequeue :
    (∀ (ε α : Type) (n : Nat) (cs : List (Cmd ε α)) (s' : PoolState ε α),
        exec cs (initPool ε α n) = some s' →
          s'.submittedLog = s'.dequeuedLog ++ s'.queue.map Task.id
          ∧ s'.dequeuedLog.Nodup)
    ∧ ((exec outOfOrderSchedule (initPool Unit Nat 2)).map
          fun s => (s.submittedLog, s.dequeuedLog, s.completedLog))
        = some ([0, 1], [0, 1], [1, 0]) := by
  constructor
  · intro ε α n cs s' he
    have h := inv_exec (inv_init n) he
    exact ⟨h.fifo, h.dequeued_nodup⟩
  · rfl

/-- Witness for C5: the FIFO facts instantiated on the very schedule that
exhibits out-of-order completion. -/
theorem c5_fifo_dequeue_witness :
    ∃ s', exec outOfOrderSchedule (initPool Unit Nat 2) = some s'
      ∧ (s'.submittedLog = s'.dequeuedLog ++ s'.queue.map Task.id
        ∧ s'.dequeuedLog.Nodup) :=
  ⟨_, rfl, c5_fifo_dequeue.1 Unit Nat 2 outOfOrderSchedule _ rfl⟩

end TP

namespace TP

/-- C6: for both programs, invoking with no argument or more than one
argument, or with one argument that selects no listed demonstration
(non-numeric text parses to 0 via atoi, and 0 selects nothing), prints the
usage text to standard output and exits with a non-zero status (1); one
argument that does select a demonstration runs exactly that demonstration
and exits with status 0. -/
theorem c6_cli_dispatch (argv0 : String) (args : List String) (a : String) :
    (args.length ≠ 1 →
        Threaddemo.runMain argv0 args = (.usage, Threaddemo.usage argv0, 1)
        ∧ Maincpp.runMain argv0 args = (.usage, Maincpp.usage argv0, 1))
    ∧ (Threaddemo.dispatch (Cstdlib.atoi a) = .usage →
        Threaddemo.runMain argv0 [a] = (.usage, Threaddemo.usage argv0, 1))
    ∧ (Threaddemo.dispatch (Cstdlib.atoi a) ≠ .usage →
        Threaddemo.runMain argv0 [a] = (Threaddemo.dispatch (Cstdlib.atoi a), [], 0))
    ∧ (Maincpp.dispatch (Cstdlib.atoi a) = .usage →
        Maincpp.runMain argv0 [a] = (.usage, Maincpp.usage argv0, 1))
    ∧ (Maincpp.dispatch (Cstdlib.atoi a) ≠ .usage →
        Maincpp.runMain argv0 [a] = (Maincpp.dispatch (Cstdlib.atoi a), [], 0))
    ∧ Cstdlib.atoi "foo" = 0
    ∧ Threaddemo.dispatch 0 = .usage
    ∧ Maincpp.dispatch 0 = .usage
    ∧ (1 : Int) ≠ 0 := by
  refine ⟨?_, ?_, ?_, ?_, ?_, by decide, by decide, by decide, by decide⟩
  · intro hlen
    constructor
    · simp only [Threaddemo.runMain, if_neg hlen]
      rfl
    · simp only [Maincpp.runMain, if_neg hlen]
      rfl
  · intro hu
    simp [Threaddemo.runMain, hu]
  · intro hne
    cases hc : Threaddemo.dispatch (Cstdlib.atoi a) <;>
      first
        | exact absurd hc hne
        | simp [Threaddemo.runMain, hc]
  · intro hu
    simp [Maincpp.runMain, hu]
  · intro hne
    cases hc : Maincpp.dispatch (Cstdlib.atoi a) <;>
      first
        | exact absurd hc hne
        | simp [Maincpp.runMain, hc]

/-- Witness for C6: no argument, the non-numeric argument "foo", and the
valid argument "7". -/
theorem c6_cli_dispatch_witness :
    (([] : List String).length ≠ 1
      ∧ Threaddemo.runMain "./threaddemo" [] = (.usage, Threaddemo.usage "./threaddemo", 1))
    ∧ (Threaddemo.dispatch (Cstdlib.atoi "foo") = .usage
      ∧ Threaddemo.runMain "./threaddemo" ["foo"]
          = (.usage, Threaddemo.usage "./threaddemo", 1))
    ∧ (Threaddemo.dispatch (Cstdlib.atoi "7") ≠ .usage
      ∧ Threaddemo.runMain "./threaddemo" ["7"]
          = (Threaddemo.dispatch (Cstdlib.atoi "7"), [], 0)) := by
  refine ⟨⟨by decide, ?_⟩, ⟨by decide, ?_⟩, ⟨by decide, ?_⟩⟩
  · exact ((c6_cli_dispatch "./threaddemo" [] "7").1 (by decide)).1
  · exact (c6_cli_dispatch "./threaddemo" [] "foo").2.1 (by decide)
  · exact (c6_cli_dispatch "./threaddemo" [] "7").2.2.1 (by decide)

/-- C7: submitting `computeSquare 7` to the pool hands back handle 0, and
after the task is dequeued and finished, `get` on that handle yields 49. -/
theorem c7_computeSquare :
    computeSquare 7 = 49
    ∧ (submit (Except.ok (computeSquare 7)) (initPool Unit Int 4)).2 = 0
    ∧ ((exec [Cmd.submit (Except.ok (computeSquare 7)), Cmd.dequeue 0, Cmd.finish 0]
          (initPool Unit Int 4)).bind fun s => get s 0) = some (Except.ok 49) :=
  ⟨rfl, rfl, rfl⟩

/-- C8: an explicit thread count below 1 is rejected synchronously at
construction; a count of at least 1 spawns exactly that many workers; an
omitted count uses the hardware-concurrency default with fixed fallback 4
when hardware concurrency is 0, always at least 1; and the worker count
never changes across any execution step or across destruction. -/
theorem c8_thread_count {ε α : Type} (hw : Nat) (n : Int) (cs : List (Cmd ε α))
    (s s' : PoolState ε α) :
    (n < 1 → mkPool ε α (some n) hw = Except.error PoolError.nonPositiveThreadCount)
    ∧ (1 ≤ n → mkPool ε α (some n) hw = Except.ok (initPool ε α n.toNat)
        ∧ (initPool ε α n.toNat).workers.length = n.toNat)
    ∧ mkPool ε α none hw = Except.ok (initPool ε α (defaultThreadCount hw))
    ∧ (initPool ε α (defaultThreadCount hw)).workers.length = defaultThreadCount hw
    ∧ defaultThreadCount hw = (if hw = 0 then hardwareFallback else hw)
    ∧ 1 ≤ defaultThreadCount hw
    ∧ (exec cs s = some s' → s'.workers.length = s.workers.length)
    ∧ (destroy s).workers.length = s.workers.length := by
  refine ⟨?_, ?_, rfl, by simp [initPool], rfl, ?_, workers_length_exec, by simp [destroy]⟩
  · intro h
    simp [mkPool, h]
  · intro h
    refine ⟨?_, by simp [initPool]⟩
    simp [mkPool, show ¬n < 1 from not_lt.mpr h]
  · unfold defaultThreadCount hardwareFallback
    split <;> omega

/-- Witness for C8: rejected count 0, accepted count 2, the empty
execution. -/
theorem c8_thread_count_witness :
    ((0 : Int) < 1
      ∧ mkPool Unit Nat (some 0) 0 = Except.error PoolError.nonPositiveThreadCount)
    ∧ ((1 : Int) ≤ 2
      ∧ mkPool Unit Nat (some 2) 0 = Except.ok (initPool Unit Nat (2 : Int).toNat)
      ∧ (initPool Unit Nat (2 : Int).toNat).workers.length = (2 : Int).toNat)
    ∧ (exec [] (initPool Unit Nat 3) = some (initPool Unit Nat 3)
      ∧ (initPool Unit Nat 3).workers.length = (initPool Unit Nat 3).workers.length) := by
  refine ⟨⟨by decide, ?_⟩, ⟨by decide, ?_⟩, rfl, ?_⟩
  · exact (c8_thread_count 0 0 [] (initPool Unit Nat 3) (initPool Unit Nat 3)).1 (by decide)
  · exact (c8_thread_count 0 2 [] (initPool Unit Nat 3) (initPool Unit Nat 3)).2.1 (by decide)
  · exact (c8_thread_count 0 2 ([] : List (Cmd Unit Nat)) (initPool Unit Nat 3)
      (initPool Unit Nat 3)).2.2.2.2.2.2.1 rfl

/-- C9: `DoSomething sec` (in both source files) writes a start and an end
message and returns exactly its argument `sec`; a pool task running it
yields `sec` through the handle's `get`. -/
theorem c9_doSomething (sec : Int) :
    (Threaddemo.DoSomething sec).2 = sec
    ∧ (Maincpp.DoSomething sec).2 = sec
    ∧ (Threaddemo.DoSomething sec).1.length = 2
    ∧ (Maincpp.DoSomething sec).1.length = 2
    ∧ ((exec [Cmd.submit (Except.ok (Threaddemo.DoSomething sec).2),
          Cmd.dequeue 0, Cmd.finish 0]
          (initPool Unit Int 1)).bind fun s => get s 0) = some (Except.ok sec) :=
  ⟨rfl, rfl, rfl, rfl, rfl⟩

/-- C10: within each source file the dispatch table agrees with that same
file's usage text — in threaddemo.cpp argument 4 runs the deferred policy
and 5 the async policy, in main.cpp argument 4 runs the async policy and 5
the deferred policy — so the two files assign opposite meanings to
arguments 4 and 5. -/
theorem c10_launch_policy_swap :
    Threaddemo.dispatch 4 = .demo45 true
    ∧ Threaddemo.Demo45policy true = .deferred
    ∧ Threaddemo.policyOfArg 4 = some .deferred
    ∧ usagePolicyOf (Threaddemo.usageLine4 "./threaddemo") = some .deferred
    ∧ Threaddemo.dispatch 5 = .demo45 false
    ∧ Threaddemo.policyOfArg 5 = some .asyncPolicy
    ∧ usagePolicyOf (Threaddemo.usageLine5 "./threaddemo") = some .asyncPolicy
    ∧ Maincpp.dispatch 4 = .demo45 false
    ∧ Maincpp.policyOfArg 4 = some .asyncPolicy
    ∧ usagePolicyOf (Maincpp.usageLine4 "./threads") = some .asyncPolicy
    ∧ Maincpp.dispatch 5 = .demo45 true
    ∧ Maincpp.policyOfArg 5 = some .deferred
    ∧ usagePolicyOf (Maincpp.usageLine5 "./threads") = some .deferred
    ∧ Threaddemo.policyOfArg 4 ≠ Maincpp.policyOfArg 4
    ∧ Threaddemo.policyOfArg 5 ≠ Maincpp.policyOfArg 5 := by
  decide

end TP
